import Mathlib

set_option maxRecDepth 16384

namespace Sgvcs

/-- Concatenation of `f` mapped over a list (byte and character sequences). -/
def listFlat (f : α → List β) : List α → List β
  | [] => []
  | x :: xs => f x ++ listFlat f xs

/-- Big-endian byte expansion of a natural number, fixed width `k`. -/
def beBytes : Nat → Nat → List Nat
  | 0, _ => []
  | k + 1, n => beBytes k (n / 256) ++ [n % 256]

/-- Reduction modulo 2^32, the wrap-around of Rust u32 arithmetic. -/
def mod32 (n : Nat) : Nat := n % 4294967296

/-- 32-bit left rotation. -/
def rotl (k w : Nat) : Nat := mod32 ((w <<< k) ||| (w >>> (32 - k)))

/-- Running state of the SHA-1 compression function (five 32-bit words). -/
structure Sha1St where
  a : Nat
  b : Nat
  c : Nat
  d : Nat
  e : Nat
deriving DecidableEq

def sha1Start : Sha1St := ⟨0x67452301, 0xEFCDAB89, 0x98BADCFE, 0x10325476, 0xC3D2E1F0⟩

def sha1F (i b c d : Nat) : Nat :=
  if i < 20 then (b &&& c) ||| ((b ^^^ 4294967295) &&& d)
  else if i < 40 then b ^^^ c ^^^ d
  else if i < 60 then (b &&& c) ||| (b &&& d) ||| (c &&& d)
  else b ^^^ c ^^^ d

def sha1K (i : Nat) : Nat :=
  if i < 20 then 0x5A827999
  else if i < 40 then 0x6ED9EBA1
  else if i < 60 then 0x8F1BBCDC
  else 0xCA62C1D6

def sha1Round (ws : List Nat) (st : Sha1St) (i : Nat) : Sha1St :=
  let t := mod32 (rotl 5 st.a + sha1F i st.b st.c st.d + st.e + sha1K i + ws.getD i 0)
  ⟨t, st.a, rotl 30 st.b, st.c, st.d⟩

/-- Append the next word of the SHA-1 message schedule. -/
def expandStep (ws : List Nat) : List Nat :=
  let n := ws.length
  ws ++ [rotl 1 ((ws.getD (n - 3) 0) ^^^ (ws.getD (n - 8) 0) ^^^ (ws.getD (n - 14) 0) ^^^ (ws.getD (n - 16) 0))]

def expandIter : Nat → List Nat → List Nat
  | 0, ws => ws
  | k + 1, ws => expandIter k (expandStep ws)

def bytesToWords : List Nat → List Nat
  | b0 :: b1 :: b2 :: b3 :: rest => (b0 * 16777216 + b1 * 65536 + b2 * 256 + b3) :: bytesToWords rest
  | _ => []

def addSt (x y : Sha1St) : Sha1St :=
  ⟨mod32 (x.a + y.a), mod32 (x.b + y.b), mod32 (x.c + y.c), mod32 (x.d + y.d), mod32 (x.e + y.e)⟩

def processBlock (st : Sha1St) (block : List Nat) : Sha1St :=
  let ws := expandIter 64 (bytesToWords block)
  addSt st ((List.range 80).foldl (sha1Round ws) st)

/-- SHA-1 padding: a 0x80 byte, zeros to 56 mod 64, and the 64-bit bit length. -/
def padMessage (msg : List Nat) : List Nat :=
  let l := msg.length
  msg ++ [128] ++ List.replicate ((120 - (l + 1) % 64) % 64) 0 ++ beBytes 8 (8 * l)

def toBlocksAux : Nat → List Nat → List (List Nat)
  | 0, _ => []
  | _, [] => []
  | fuel + 1, b :: bs => ((b :: bs).take 64) :: toBlocksAux fuel ((b :: bs).drop 64)

/-- Split a byte sequence into 64-byte blocks.  Each step consumes at
least one byte, so `bs.length` fuel always suffices. -/
def toBlocks (bs : List Nat) : List (List Nat) := toBlocksAux bs.length bs

def sha1words (msg : List Nat) : List Nat :=
  let st := (toBlocks (padMessage msg)).foldl processBlock sha1Start
  [st.a, st.b, st.c, st.d, st.e]

def sha1bytes (msg : List Nat) : List Nat := listFlat (beBytes 4) (sha1words msg)

def hexDigit (n : Nat) : Char := if n < 10 then Char.ofNat (48 + n) else Char.ofNat (87 + n)

def byteHexChars (b : Nat) : List Char := [hexDigit (b / 16), hexDigit (b % 16)]

/-- `Sgvcs::hash`: lowercase hex SHA-1 digest of the content bytes,
as built by the byte-by-byte "\x7b:02x\x7d" formatting loop in the source. -/
def hash (content : List Nat) : String := String.mk (listFlat byteHexChars (sha1bytes content))

/-- UTF-8 encoding of one scalar value (Rust `String`s are valid UTF-8). -/
def utf8EncodeChar (c : Char) : List Nat :=
  let n := c.toNat
  if n < 128 then [n]
  else if n < 2048 then [192 + n / 64, 128 + n % 64]
  else if n < 65536 then [224 + n / 4096, 128 + (n / 64) % 64, 128 + n % 64]
  else [240 + n / 262144, 128 + (n / 4096) % 64, 128 + (n / 64) % 64, 128 + n % 64]

/-- Byte sequence of a string, as Rust observes it (`as_bytes`). -/
def utf8Encode (s : String) : List Nat := listFlat utf8EncodeChar s.data

/-- UTF-8 validity of a byte sequence: the criterion under which Rust
`read_to_string` succeeds rather than failing with `InvalidData`. -/
def validUtf8 : List Nat → Bool
  | [] => true
  | b :: rest =>
    if b < 128 then validUtf8 rest
    else if b < 194 then false
    else if b < 224 then
      match rest with
      | b1 :: rest1 => (128 ≤ b1 && b1 < 192) && validUtf8 rest1
      | [] => false
    else if b < 240 then
      match rest with
      | b1 :: b2 :: rest2 =>
        (if b = 224 then 160 ≤ b1 && b1 < 192
         else if b = 237 then 128 ≤ b1 && b1 < 160
         else 128 ≤ b1 && b1 < 192) &&
        ((128 ≤ b2 && b2 < 192) && validUtf8 rest2)
      | _ => false
    else if b < 245 then
      match rest with
      | b1 :: b2 :: b3 :: rest3 =>
        (if b = 240 then 144 ≤ b1 && b1 < 192
         else if b = 244 then 128 ≤ b1 && b1 < 144
         else 128 ≤ b1 && b1 < 192) &&
        ((128 ≤ b2 && b2 < 192) && ((128 ≤ b3 && b3 < 192) && validUtf8 rest3))
      | _ => false
    else false

/-- serde_json escaping of one character inside a JSON string literal. -/
def escapeChar (c : Char) : List Char :=
  let n := c.toNat
  if n = 34 then [Char.ofNat 92, Char.ofNat 34]
  else if n = 92 then [Char.ofNat 92, Char.ofNat 92]
  else if n = 8 then [Char.ofNat 92, Char.ofNat 98]
  else if n = 9 then [Char.ofNat 92, Char.ofNat 116]
  else if n = 10 then [Char.ofNat 92, Char.ofNat 110]
  else if n = 12 then [Char.ofNat 92, Char.ofNat 102]
  else if n = 13 then [Char.ofNat 92, Char.ofNat 114]
  else if n < 32 then
    [Char.ofNat 92, Char.ofNat 117, Char.ofNat 48, Char.ofNat 48, hexDigit (n / 16), hexDigit (n % 16)]
  else [c]

/-- A JSON string literal for `s` (quotes plus serde_json escaping). -/
def jsonStr (s : String) : String :=
  String.mk ((Char.ofNat 34 :: listFlat escapeChar s.data) ++ [Char.ofNat 34])

/-- `IndexData`: one staged entry, a (path, hash) pair. -/
structure IndexData where
  path : String
  hash : String
deriving DecidableEq, Repr

/-- `CommitData`: a commit record (message, timestamp, staged file list, parent hash). -/
structure CommitData where
  message : String
  time_stamp : String
  files : List IndexData
  parent : String
deriving DecidableEq, Repr

/-- One staged entry as serde_json's pretty printer lays it out inside
the "files" array of a commit record (element indent depth 2). -/
def serializeEntry (e : IndexData) : String :=
  "    \x7b\n      \"path\": " ++ jsonStr e.path ++ ",\n      \"hash\": " ++ jsonStr e.hash ++ "\n    \x7d"

def serializeFiles : List IndexData → String
  | [] => "[]"
  | f :: fs => "[\n" ++ String.intercalate ",\n" ((f :: fs).map serializeEntry) ++ "\n  ]"

/-- `serde_json::to_string_pretty` of a `CommitData` (2-space indent,
fields in struct declaration order). -/
def serializeCommit (c : CommitData) : String :=
  "\x7b\n  \"message\": " ++ jsonStr c.message ++ ",\n  \"time_stamp\": " ++ jsonStr c.time_stamp ++
    ",\n  \"files\": " ++ serializeFiles c.files ++ ",\n  \"parent\": " ++ jsonStr c.parent ++ "\n\x7d"

/-- An object stored under `objects/<hash>`: either raw blob bytes, or a
commit record.  A stored commit stands for the serde_json bytes of its
record, which deserialize back to the record (serde round-trip); the blob
case stands for file bytes, which do not parse as a commit record. -/
inductive StoredObj
  | blob (content : List Nat)
  | commitObj (record : CommitData)
deriving DecidableEq, Repr

/-- Content of the `index` file, as observed through serde_json: either a
list of entries, or bytes that do not parse as one. -/
inductive IndexContent
  | entries (l : List IndexData)
  | corrupt
deriving DecidableEq, Repr

/-- Content of the `HEAD` file, as observed through `read_to_string`:
readable text, or content on which the read fails (e.g. invalid UTF-8). -/
inductive HeadContent
  | text (s : String)
  | invalid
deriving DecidableEq, Repr

/-- The persisted repository state owned by a `Sgvcs` value: the current
directory the paths are derived from, the existence of the two
directories, the `index` and `HEAD` files, and the object store as an
association list from hex hash to stored object. -/
structure VcsState where
  currentDir : String
  repoDirExists : Bool
  objectsDirExists : Bool
  indexFile : Option IndexContent
  headFile : Option HeadContent
  objects : List (String × StoredObj)
deriving DecidableEq, Repr

/-- Rust `Path::join`: an absolute right operand replaces the base,
otherwise it is pushed after a separator. -/
def joinPath (base rel : String) : String :=
  if rel.data.head? = some (Char.ofNat 47) then rel
  else base ++ String.mk (Char.ofNat 47 :: rel.data)

def repoPath (s : VcsState) : String := joinPath s.currentDir ".sgvcs"

def objectsPath (s : VcsState) : String := joinPath (repoPath s) "objects"

/-- First-match lookup in the object store (one file per hash key). -/
def lookupObj : List (String × StoredObj) → String → Option StoredObj
  | [], _ => none
  | (k, v) :: rest, h => if k = h then some v else lookupObj rest h

/-- Write a file `objects/<k>`: replace the object at an existing key,
create the key otherwise. -/
def setObj : List (String × StoredObj) → String → StoredObj → List (String × StoredObj)
  | [], k, v => [(k, v)]
  | (k0, v0) :: rest, k, v => if k0 = k then (k, v) :: rest else (k0, v0) :: setObj rest k v

/-- Outcome of a process abort: an `unwrap`/`expect` panic in the source. -/
inductive VcsPanic
  | panicked
deriving DecidableEq, Repr

/-- What `Sgvcs::init` printed for each location: `true` when the
location already existed, `false` when it was created. -/
structure InitReport where
  repoExisted : Bool
  objectsExisted : Bool
  indexExisted : Bool
  headExisted : Bool
deriving DecidableEq, Repr

/-- `Sgvcs::init`: create each of the four persisted locations when
missing (index initialized to the empty array, HEAD to an empty file),
report pre-existence otherwise. -/
def init (s : VcsState) : VcsState × InitReport :=
  let rExisted := s.repoDirExists
  let s1 := if s.repoDirExists then s else { s with repoDirExists := true }
  let oExisted := s1.objectsDirExists
  let s2 := if s1.objectsDirExists then s1 else { s1 with objectsDirExists := true }
  let iExisted := s2.indexFile.isSome
  let s3 := if s2.indexFile.isSome then s2 else { s2 with indexFile := some (IndexContent.entries []) }
  let hExisted := s3.headFile.isSome
  let s4 := if s3.headFile.isSome then s3 else { s3 with headFile := some (HeadContent.text "") }
  (s4, ⟨rExisted, oExisted, iExisted, hExisted⟩)

/-- `Sgvcs::get_current_head`: HEAD's stored text, or the empty string
when the file is missing or the read fails (both arms return
`String::new()` in the source). -/
def get_current_head (s : VcsState) : String :=
  match s.headFile with
  | none => ""
  | some HeadContent.invalid => ""
  | some (HeadContent.text str) => str

/-- `Sgvcs::update_staging_area`: read the whole index, panic if it is
missing or does not parse, append the new entry, write the whole list
back. -/
def update_staging_area (s : VcsState) (file_path : String) (file_hash : String) :
    Except VcsPanic VcsState :=
  match s.indexFile with
  | none => Except.error VcsPanic.panicked
  | some IndexContent.corrupt => Except.error VcsPanic.panicked
  | some (IndexContent.entries data) =>
    Except.ok { s with indexFile := some (IndexContent.entries (data ++ [⟨file_path, file_hash⟩])) }

/-- `Sgvcs::add_file`: hash the file's bytes, write them under
`objects/<hash>` (when the object already exists the source re-writes the
identical bytes to it, so the store is unchanged at that key either way),
then stage the (path, hash) pair. -/
def add_file (s : VcsState) (path : String) (content : List Nat) : Except VcsPanic VcsState :=
  let hashed_data := hash content
  let s1 := { s with objects := setObj s.objects hashed_data (StoredObj.blob content) }
  update_staging_area s1 path hashed_data

/-- `Sgvcs::commit`: read the staging list (panic when missing or
unparseable), read HEAD as the parent, build the record with the given
message and call-time timestamp, store its serde_json bytes under their
hash, point HEAD at that hash, and reset the index to the empty list. -/
def commit (s : VcsState) (message : String) (time_stamp : String) :
    Except VcsPanic (String × VcsState) :=
  match s.indexFile with
  | none => Except.error VcsPanic.panicked
  | some IndexContent.corrupt => Except.error VcsPanic.panicked
  | some (IndexContent.entries files) =>
    let parent_commit := get_current_head s
    let c : CommitData := ⟨message, time_stamp, files, parent_commit⟩
    let commit_hash := hash (utf8Encode (serializeCommit c))
    let s1 := { s with objects := setObj s.objects commit_hash (StoredObj.commitObj c) }
    let s2 := { s1 with headFile := some (HeadContent.text commit_hash) }
    let s3 := { s2 with indexFile := some (IndexContent.entries []) }
    Except.ok (commit_hash, s3)

/-- Outcome of `Sgvcs::log`: the yielded (hash, record) pairs in print
order; `panicked` when a hash on the chain is missing or unparseable
(the source `unwrap`s); `fuelOut` when the walk does not finish within
the fuel (a cyclic chain never terminates in the source). -/
inductive LogResult
  | ok (entries : List (String × CommitData))
  | panicked
  | fuelOut
deriving DecidableEq, Repr

def logAux (os : List (String × StoredObj)) : Nat → String → LogResult
  | 0, h => if h = "" then LogResult.ok [] else LogResult.fuelOut
  | fuel + 1, h =>
    if h = "" then LogResult.ok []
    else
      match lookupObj os h with
      | none => LogResult.panicked
      | some (StoredObj.blob _) => LogResult.panicked
      | some (StoredObj.commitObj c) =>
        match logAux os fuel c.parent with
        | LogResult.ok rest => LogResult.ok ((h, c) :: rest)
        | r => r

/-- `Sgvcs::log`: start at HEAD and follow parent links while the current
hash is non-empty.  One more unit of fuel than the store has objects is
enough for any acyclic chain. -/
def log (s : VcsState) : LogResult := logAux s.objects (s.objects.length + 1) (get_current_head s)

/-- `Sgvcs::get_file_contents`: open `objects/<hash>` (panic when
missing) and `read_to_string` it (panic when not valid UTF-8).  The
result is the returned string, represented by its bytes. -/
def get_file_contents (s : VcsState) (file_hash : String) : Except VcsPanic (List Nat) :=
  match lookupObj s.objects file_hash with
  | none => Except.error VcsPanic.panicked
  | some (StoredObj.blob content) =>
    if validUtf8 content then Except.ok content else Except.error VcsPanic.panicked
  | some (StoredObj.commitObj c) => Except.ok (utf8Encode (serializeCommit c))

/-- `Sgvcs::get_commit_data`: `None` (after printing "Commit not found")
when the object file is missing; the parsed record when it holds one;
panic when the stored bytes do not parse as a commit record. -/
def get_commit_data (s : VcsState) (commithash : String) : Except VcsPanic (Option CommitData) :=
  match lookupObj s.objects commithash with
  | none => Except.ok none
  | some (StoredObj.commitObj c) => Except.ok (some c)
  | some (StoredObj.blob _) => Except.error VcsPanic.panicked

/-- `Sgvcs::get_parent_file_content`: find the first parent entry whose
`path` equals the given path string, and return that blob's contents. -/
def get_parent_file_content (s : VcsState) (parent_commit_data : CommitData) (file_path : String) :
    Except VcsPanic (Option (List Nat)) :=
  match parent_commit_data.files.find? (fun file => file.path == file_path) with
  | some file =>
    match get_file_contents s file.hash with
    | Except.ok file_content => Except.ok (some file_content)
    | Except.error e => Except.error e
  | none => Except.ok none

/-- The parent side that `show_commit_diff` prints for one file entry. -/
inductive ParentSide
  | firstCommit
  | parentCommitMissing
  | found (content : List Nat)
  | absent
deriving DecidableEq, Repr

structure DiffLine where
  path : String
  current : List Nat
  parentSide : ParentSide
deriving DecidableEq, Repr

inductive DiffResult
  | notFound
  | report (lines : List DiffLine)
deriving DecidableEq, Repr

/-- One iteration of the `for file in commit.files` loop of
`show_commit_diff`: the current content, then the parent side.  The
path handed to `get_parent_file_content` is `objects_path.join(file.path)`,
exactly as in the source. -/
def diffLineFor (s : VcsState) (c : CommitData) (file : IndexData) : Except VcsPanic DiffLine :=
  match get_file_contents s file.hash with
  | Except.error e => Except.error e
  | Except.ok file_content =>
    if c.parent = "" then Except.ok ⟨file.path, file_content, ParentSide.firstCommit⟩
    else
      match get_commit_data s c.parent with
      | Except.error e => Except.error e
      | Except.ok none => Except.ok ⟨file.path, file_content, ParentSide.parentCommitMissing⟩
      | Except.ok (some data) =>
        match get_parent_file_content s data (joinPath (objectsPath s) file.path) with
        | Except.error e => Except.error e
        | Except.ok (some pc) => Except.ok ⟨file.path, file_content, ParentSide.found pc⟩
        | Except.ok none => Except.ok ⟨file.path, file_content, ParentSide.absent⟩

def diffLines (s : VcsState) (c : CommitData) : List IndexData → Except VcsPanic (List DiffLine)
  | [] => Except.ok []
  | f :: fs =>
    match diffLineFor s c f with
    | Except.error e => Except.error e
    | Except.ok line =>
      match diffLines s c fs with
      | Except.error e => Except.error e
      | Except.ok rest => Except.ok (line :: rest)

/-- `Sgvcs::show_commit_diff`: report "Commit not found" for a missing
hash, otherwise one line per file of the commit.  The function takes
`&self` and only opens files for reading, so the state is returned
unchanged. -/
def show_commit_diff (s : VcsState) (commithash : String) :
    Except VcsPanic (DiffResult × VcsState) :=
  match get_commit_data s commithash with
  | Except.error e => Except.error e
  | Except.ok none => Except.ok (DiffResult.notFound, s)
  | Except.ok (some c) =>
    match diffLines s c c.files with
    | Except.error e => Except.error e
    | Except.ok lines => Except.ok (DiffResult.report lines, s)

/-- One commit of a build: the files added (path and working-tree
content) since the previous commit, then `commit` with this message and
call-time timestamp. -/
structure BuildStep where
  adds : List (String × List Nat)
  message : String
  time_stamp : String

/-- Run a sequence of `add_file` calls. -/
def applyAdds : VcsState → List (String × List Nat) → Except VcsPanic VcsState
  | s, [] => Except.ok s
  | s, (p, content) :: rest =>
    match add_file s p content with
    | Except.error e => Except.error e
    | Except.ok s1 => applyAdds s1 rest

/-- Run a sequence of build steps; the returned hashes are most recent
first. -/
def runBuild : VcsState → List BuildStep → Except VcsPanic (List String × VcsState)
  | s, [] => Except.ok ([], s)
  | s, step :: rest =>
    match applyAdds s step.adds with
    | Except.error e => Except.error e
    | Except.ok s1 =>
      match commit s1 step.message step.time_stamp with
      | Except.error e => Except.error e
      | Except.ok (h, s2) =>
        match runBuild s2 rest with
        | Except.error e => Except.error e
        | Except.ok (hs, s3) => Except.ok (hs ++ [h], s3)

/-- The blob write of an `add_file` call does not clobber a different
object: its key is absent, or already holds the very same blob. -/
def addWriteFresh (s : VcsState) (content : List Nat) : Bool :=
  match lookupObj s.objects (hash content) with
  | none => true
  | some v => decide (v = StoredObj.blob content)

def addsFresh : VcsState → List (String × List Nat) → Bool
  | _, [] => true
  | s, (p, content) :: rest =>
    addWriteFresh s content &&
      (match add_file s p content with
       | Except.error _ => false
       | Except.ok s1 => addsFresh s1 rest)

/-- The commit about to be written gets a hash not yet present in the
object store. -/
def commitFresh (s : VcsState) (message time_stamp : String) : Bool :=
  match s.indexFile with
  | some (IndexContent.entries files) =>
    (lookupObj s.objects
      (hash (utf8Encode (serializeCommit ⟨message, time_stamp, files, get_current_head s⟩)))).isNone
  | _ => false

/-- SHA-1 behaves injectively on the objects this build writes: no write
replaces a different stored object (the collision-resistance assumption
of spec §9), checked along the run. -/
def buildFresh : VcsState → List BuildStep → Bool
  | _, [] => true
  | s, step :: rest =>
    addsFresh s step.adds &&
      (match applyAdds s step.adds with
       | Except.error _ => false
       | Except.ok s1 =>
         commitFresh s1 step.message step.time_stamp &&
           (match commit s1 step.message step.time_stamp with
            | Except.error _ => false
            | Except.ok (_, s2) => buildFresh s2 rest))

/-- The chain shape `log` is specified to yield: each record's parent is
the hash of the next yielded pair, and the last record's parent is the
empty string. -/
def chainedB : List (String × CommitData) → Bool
  | [] => true
  | [(_, c)] => c.parent == ""
  | (_, c) :: (h1, c1) :: rest => (c.parent == h1) && chainedB ((h1, c1) :: rest)

/-- A directory with no repository yet. -/
def emptyDirState (cwd : String) : VcsState := ⟨cwd, false, false, none, none, []⟩

/-- A freshly initialized repository in `cwd`. -/
def initialState (cwd : String) : VcsState := (init (emptyDirState cwd)).1

/-- The two-commit scenario of spec §8: commit "hello" as a.txt, then
commit "world" as a.txt. -/
def scenarioSteps : List BuildStep :=
  [⟨[("a.txt", utf8Encode "hello")], "m1", "t1"⟩,
   ⟨[("a.txt", utf8Encode "world")], "m2", "t2"⟩]

def scenarioState : VcsState :=
  match runBuild (initialState "/repo") scenarioSteps with
  | Except.ok (_, s) => s
  | Except.error _ => emptyDirState "/repo"

def scenarioHead : String := get_current_head scenarioState

def scenarioParent : String :=
  match get_commit_data scenarioState scenarioHead with
  | Except.ok (some c) => c.parent
  | _ => ""

/-- The state after storing the single non-UTF-8 byte 0xFF with `add_file`. -/
def c3State : VcsState :=
  match add_file (initialState "/repo") "f.bin" [255] with
  | Except.ok s => s
  | Except.error _ => emptyDirState "/repo"

/-- A repository whose staging index already holds one entry for "a.txt". -/
def dupState : VcsState :=
  { initialState "/repo" with indexFile := some (IndexContent.entries [⟨"a.txt", "h1"⟩]) }

/-- A repository whose staging index references a hash absent from the
object store. -/
def danglingState : VcsState :=
  { initialState "/repo" with indexFile := some (IndexContent.entries [⟨"ghost.txt", "0000"⟩]) }

theorem lookupObj_setObj_self (os : List (String × StoredObj)) (k : String) (v : StoredObj) :
    lookupObj (setObj os k v) k = some v := by
  induction os with
  | nil => simp [setObj, lookupObj]
  | cons p rest ih =>
    obtain ⟨k0, v0⟩ := p
    by_cases h0 : k0 = k
    · simp [setObj, h0, lookupObj]
    · simp [setObj, h0, lookupObj, ih]

theorem lookupObj_setObj_ne (os : List (String × StoredObj)) (k : String) (v : StoredObj)
    (h : String) (hne : h ≠ k) : lookupObj (setObj os k v) h = lookupObj os h := by
  induction os with
  | nil =>
    simp only [setObj, lookupObj]
    rw [if_neg (fun hc => hne hc.symm)]
  | cons p rest ih =>
    obtain ⟨k0, v0⟩ := p
    by_cases h0 : k0 = k
    · subst h0
      simp only [setObj, if_pos rfl, lookupObj]
      rw [if_neg (fun hc => hne hc.symm), if_neg (fun hc => hne hc.symm)]
    · simp [setObj, h0, lookupObj, ih]

theorem setObj_lookup_self (os : List (String × StoredObj)) (k : String) (v : StoredObj)
    (hl : lookupObj os k = some v) : setObj os k v = os := by
  induction os with
  | nil => simp [lookupObj] at hl
  | cons p rest ih =>
    obtain ⟨k0, v0⟩ := p
    simp only [lookupObj] at hl
    simp only [setObj]
    by_cases h0 : k0 = k
    · subst h0
      simp only [if_pos rfl] at hl ⊢
      obtain rfl : v0 = v := by simpa using hl
      rfl
    · simp only [if_neg h0] at hl ⊢
      simp [ih hl]

theorem setObj_length_fresh (os : List (String × StoredObj)) (k : String) (v : StoredObj)
    (hl : lookupObj os k = none) : (setObj os k v).length = os.length + 1 := by
  induction os with
  | nil => rfl
  | cons p rest ih =>
    obtain ⟨k0, v0⟩ := p
    simp only [lookupObj] at hl
    by_cases h0 : k0 = k
    · simp [h0] at hl
    · simp only [setObj, if_neg h0] at *
      simp [ih hl]

theorem logAux_empty (os : List (String × StoredObj)) (fuel : Nat) :
    logAux os fuel "" = LogResult.ok [] := by
  cases fuel <;> simp [logAux]

theorem logAux_step (os : List (String × StoredObj)) (fuel : Nat) (h : String) (hh : h ≠ "") :
    logAux os (fuel + 1) h =
      match lookupObj os h with
      | none => LogResult.panicked
      | some (StoredObj.blob _) => LogResult.panicked
      | some (StoredObj.commitObj c) =>
        match logAux os fuel c.parent with
        | LogResult.ok rest => LogResult.ok ((h, c) :: rest)
        | r => r := by
  conv_lhs => rw [logAux]
  rw [if_neg hh]

theorem logAux_mono_succ (os : List (String × StoredObj)) :
    ∀ fuel h, logAux os fuel h ≠ LogResult.fuelOut →
      logAux os (fuel + 1) h = logAux os fuel h := by
  intro fuel
  induction fuel with
  | zero =>
    intro h hne
    by_cases hh : h = ""
    · simp [hh, logAux_empty]
    · simp [logAux, hh] at hne
  | succ n ih =>
    intro h hne
    by_cases hh : h = ""
    · simp [hh, logAux_empty]
    · rw [logAux_step os n h hh] at hne ⊢
      rw [logAux_step os (n + 1) h hh]
      cases hl : lookupObj os h with
      | none => simp [hl]
      | some obj =>
        cases obj with
        | blob content => simp [hl]
        | commitObj c =>
          simp only [hl] at hne ⊢
          have hinner : logAux os n c.parent ≠ LogResult.fuelOut := by
            intro hc
            rw [hc] at hne
            exact hne rfl
          rw [ih c.parent hinner]

theorem logAux_mono (os : List (String × StoredObj)) (d : Nat) :
    ∀ fuel h, logAux os fuel h ≠ LogResult.fuelOut →
      logAux os (fuel + d) h = logAux os fuel h := by
  induction d with
  | zero => intro fuel h _; rfl
  | succ n ih =>
    intro fuel h hne
    have h1 := ih fuel h hne
    have h2 : logAux os (fuel + n) h ≠ LogResult.fuelOut := by rw [h1]; exact hne
    calc logAux os (fuel + (n + 1)) h = logAux os ((fuel + n) + 1) h := rfl
      _ = logAux os (fuel + n) h := logAux_mono_succ os (fuel + n) h h2
      _ = logAux os fuel h := h1

theorem logAux_fresh (os : List (String × StoredObj)) (k : String) (v : StoredObj)
    (hk : lookupObj os k = none) :
    ∀ fuel h l, logAux os fuel h = LogResult.ok l →
      logAux (setObj os k v) fuel h = LogResult.ok l := by
  intro fuel
  induction fuel with
  | zero =>
    intro h l hok
    by_cases hh : h = ""
    · subst hh
      rw [logAux_empty] at hok ⊢
      exact hok
    · simp [logAux, hh] at hok
  | succ n ih =>
    intro h l hok
    by_cases hh : h = ""
    · subst hh
      rw [logAux_empty] at hok ⊢
      exact hok
    · rw [logAux_step os n h hh] at hok
      rw [logAux_step (setObj os k v) n h hh]
      cases hl : lookupObj os h with
      | none => simp [hl] at hok
      | some obj =>
        cases obj with
        | blob content => simp [hl] at hok
        | commitObj c =>
          have hne : h ≠ k := by
            intro hc
            rw [hc, hk] at hl
            exact Option.noConfusion hl
          rw [lookupObj_setObj_ne os k v h hne]
          simp only [hl]
          simp only [hl] at hok
          cases hinner : logAux os n c.parent with
          | ok rest =>
            rw [ih c.parent rest hinner]
            simpa [hinner] using hok
          | panicked => simp [hinner] at hok
          | fuelOut => simp [hinner] at hok

theorem logAux_ok_nil (os : List (String × StoredObj)) (fuel : Nat) (h : String)
    (hok : logAux os fuel h = LogResult.ok []) : h = "" := by
  by_cases hh : h = ""
  · exact hh
  · exfalso
    cases fuel with
    | zero => simp [logAux, hh] at hok
    | succ n =>
      rw [logAux_step os n h hh] at hok
      cases hl : lookupObj os h with
      | none => simp [hl] at hok
      | some obj =>
        cases obj with
        | blob content => simp [hl] at hok
        | commitObj c =>
          simp only [hl] at hok
          cases hinner : logAux os n c.parent <;> simp [hinner] at hok

theorem logAux_ok_cons (os : List (String × StoredObj)) (fuel : Nat) (h : String)
    (p : String × CommitData) (rest : List (String × CommitData))
    (hok : logAux os fuel h = LogResult.ok (p :: rest)) : h = p.1 := by
  obtain ⟨ph, pc⟩ := p
  by_cases hh : h = ""
  · subst hh
    rw [logAux_empty] at hok
    exact absurd hok (by simp)
  · cases fuel with
    | zero => simp [logAux, hh] at hok
    | succ n =>
      rw [logAux_step os n h hh] at hok
      cases hl : lookupObj os h with
      | none => simp [hl] at hok
      | some obj =>
        cases obj with
        | blob content => simp [hl] at hok
        | commitObj c =>
          simp only [hl] at hok
          cases hinner : logAux os n c.parent with
          | ok r =>
            simp only [hinner, LogResult.ok.injEq, List.cons.injEq, Prod.mk.injEq] at hok
            exact hok.1.1
          | panicked => simp [hinner] at hok
          | fuelOut => simp [hinner] at hok

theorem beBytes_length : ∀ k n, (beBytes k n).length = k := by
  intro k
  induction k with
  | zero => intro n; rfl
  | succ m ih => intro n; simp [beBytes, ih]

theorem listFlat_length_const (f : α → List β) (k : Nat) (hf : ∀ a, (f a).length = k) :
    ∀ l, (listFlat f l).length = k * l.length := by
  intro l
  induction l with
  | nil => simp [listFlat]
  | cons x xs ih =>
    simp only [listFlat, List.length_append, List.length_cons, ih, hf x]
    ring

theorem sha1words_length (msg : List Nat) : (sha1words msg).length = 5 := rfl

theorem sha1bytes_length (msg : List Nat) : (sha1bytes msg).length = 20 := by
  have h := listFlat_length_const (beBytes 4) 4 (beBytes_length 4) (sha1words msg)
  rw [sha1bytes, h, sha1words_length]

theorem hash_length (content : List Nat) : (hash content).length = 40 := by
  have h := listFlat_length_const byteHexChars 2 (fun _ => rfl) (sha1bytes content)
  have : (hash content).length = (listFlat byteHexChars (sha1bytes content)).length := rfl
  rw [this, h, sha1bytes_length]

theorem hash_ne_empty (content : List Nat) : hash content ≠ "" := by
  intro h
  have h1 := congrArg String.length h
  rw [hash_length] at h1
  exact absurd h1 (by decide)

theorem update_staging_area_spec (s : VcsState) (xs : List IndexData) (p h : String)
    (hidx : s.indexFile = some (IndexContent.entries xs)) :
    update_staging_area s p h =
      Except.ok { s with indexFile := some (IndexContent.entries (xs ++ [⟨p, h⟩])) } := by
  simp [update_staging_area, hidx]

theorem add_file_spec (s : VcsState) (xs : List IndexData) (p : String) (content : List Nat)
    (hidx : s.indexFile = some (IndexContent.entries xs)) :
    add_file s p content = Except.ok
      { s with objects := setObj s.objects (hash content) (StoredObj.blob content),
               indexFile := some (IndexContent.entries (xs ++ [⟨p, hash content⟩])) } := by
  simp [add_file, update_staging_area, hidx]

theorem commit_spec (s : VcsState) (xs : List IndexData) (message time_stamp : String)
    (hidx : s.indexFile = some (IndexContent.entries xs)) :
    commit s message time_stamp = Except.ok
      (hash (utf8Encode (serializeCommit ⟨message, time_stamp, xs, get_current_head s⟩)),
       { s with
           objects := setObj s.objects
             (hash (utf8Encode (serializeCommit ⟨message, time_stamp, xs, get_current_head s⟩)))
             (StoredObj.commitObj ⟨message, time_stamp, xs, get_current_head s⟩),
           headFile := some (HeadContent.text
             (hash (utf8Encode (serializeCommit ⟨message, time_stamp, xs, get_current_head s⟩)))),
           indexFile := some (IndexContent.entries []) }) := by
  simp [commit, hidx]

theorem log_add_file (s : VcsState) (xs : List IndexData) (p : String) (content : List Nat)
    (l : List (String × CommitData))
    (hidx : s.indexFile = some (IndexContent.entries xs))
    (hfresh : addWriteFresh s content = true)
    (hlog : log s = LogResult.ok l) :
    ∃ s1, add_file s p content = Except.ok s1 ∧ log s1 = LogResult.ok l ∧
      s1.indexFile = some (IndexContent.entries (xs ++ [⟨p, hash content⟩])) := by
  refine ⟨_, add_file_spec s xs p content hidx, ?_, rfl⟩
  unfold addWriteFresh at hfresh
  cases hl : lookupObj s.objects (hash content) with
  | none =>
    show logAux (setObj s.objects (hash content) (StoredObj.blob content))
      ((setObj s.objects (hash content) (StoredObj.blob content)).length + 1)
      (get_current_head s) = LogResult.ok l
    have h1 : logAux (setObj s.objects (hash content) (StoredObj.blob content))
        (s.objects.length + 1) (get_current_head s) = LogResult.ok l :=
      logAux_fresh s.objects (hash content) (StoredObj.blob content) hl
        (s.objects.length + 1) (get_current_head s) l hlog
    rw [setObj_length_fresh s.objects (hash content) (StoredObj.blob content) hl]
    have h2 : logAux (setObj s.objects (hash content) (StoredObj.blob content))
        (s.objects.length + 1) (get_current_head s) ≠ LogResult.fuelOut := by
      rw [h1]
      intro hc
      exact LogResult.noConfusion hc
    rw [show s.objects.length + 1 + 1 = (s.objects.length + 1) + 1 from rfl]
    rw [logAux_mono_succ _ _ _ h2]
    exact h1
  | some v =>
    rw [hl] at hfresh
    have hv : v = StoredObj.blob content := of_decide_eq_true hfresh
    subst hv
    show logAux (setObj s.objects (hash content) (StoredObj.blob content))
      ((setObj s.objects (hash content) (StoredObj.blob content)).length + 1)
      (get_current_head s) = LogResult.ok l
    rw [setObj_lookup_self s.objects (hash content) (StoredObj.blob content) hl]
    exact hlog

theorem log_commit (s : VcsState) (xs : List IndexData) (message time_stamp : String)
    (l : List (String × CommitData))
    (hidx : s.indexFile = some (IndexContent.entries xs))
    (hfresh : commitFresh s message time_stamp = true)
    (hlog : log s = LogResult.ok l)
    (hch : chainedB l = true) :
    ∃ s1, commit s message time_stamp = Except.ok
        (hash (utf8Encode (serializeCommit ⟨message, time_stamp, xs, get_current_head s⟩)), s1) ∧
      log s1 = LogResult.ok
        ((hash (utf8Encode (serializeCommit ⟨message, time_stamp, xs, get_current_head s⟩)),
          (⟨message, time_stamp, xs, get_current_head s⟩ : CommitData)) :: l) ∧
      chainedB ((hash (utf8Encode (serializeCommit ⟨message, time_stamp, xs, get_current_head s⟩)),
          (⟨message, time_stamp, xs, get_current_head s⟩ : CommitData)) :: l) = true ∧
      s1.indexFile = some (IndexContent.entries []) ∧
      get_current_head s1 =
        hash (utf8Encode (serializeCommit ⟨message, time_stamp, xs, get_current_head s⟩)) := by
  unfold commitFresh at hfresh
  rw [hidx] at hfresh
  have hnone : lookupObj s.objects
      (hash (utf8Encode (serializeCommit ⟨message, time_stamp, xs, get_current_head s⟩))) = none :=
    Option.isNone_iff_eq_none.mp hfresh
  refine ⟨_, commit_spec s xs message time_stamp hidx, ?_, ?_, rfl, rfl⟩
  · show logAux
      (setObj s.objects (hash (utf8Encode (serializeCommit ⟨message, time_stamp, xs, get_current_head s⟩)))
        (StoredObj.commitObj ⟨message, time_stamp, xs, get_current_head s⟩))
      ((setObj s.objects (hash (utf8Encode (serializeCommit ⟨message, time_stamp, xs, get_current_head s⟩)))
        (StoredObj.commitObj ⟨message, time_stamp, xs, get_current_head s⟩)).length + 1)
      (hash (utf8Encode (serializeCommit ⟨message, time_stamp, xs, get_current_head s⟩))) = _
    rw [setObj_length_fresh _ _ _ hnone]
    rw [show s.objects.length + 1 + 1 = (s.objects.length + 1) + 1 from rfl]
    rw [logAux_step _ _ _ (hash_ne_empty _)]
    rw [lookupObj_setObj_self]
    have hinner : logAux
        (setObj s.objects (hash (utf8Encode (serializeCommit ⟨message, time_stamp, xs, get_current_head s⟩)))
          (StoredObj.commitObj ⟨message, time_stamp, xs, get_current_head s⟩))
        (s.objects.length + 1) (get_current_head s) = LogResult.ok l :=
      logAux_fresh s.objects _ _ hnone (s.objects.length + 1) (get_current_head s) l hlog
    simp only []
    rw [hinner]
  · cases l with
    | nil =>
      have hhead : get_current_head s = "" := logAux_ok_nil s.objects _ _ hlog
      simp [chainedB, hhead]
    | cons q rest =>
      obtain ⟨qh, qc⟩ := q
      have hhead : get_current_head s = qh :=
        logAux_ok_cons s.objects _ _ (qh, qc) rest hlog
      simp [chainedB, hhead, hch]

theorem applyAdds_log : ∀ (adds : List (String × List Nat)) (s : VcsState) (xs : List IndexData)
    (l : List (String × CommitData)),
    s.indexFile = some (IndexContent.entries xs) →
    addsFresh s adds = true →
    log s = LogResult.ok l →
    ∃ s1 xs1, applyAdds s adds = Except.ok s1 ∧ log s1 = LogResult.ok l ∧
      s1.indexFile = some (IndexContent.entries xs1) := by
  intro adds
  induction adds with
  | nil => exact fun s xs l hidx _ hlog => ⟨s, xs, rfl, hlog, hidx⟩
  | cons pc rest ih =>
    intro s xs l hidx hfresh hlog
    obtain ⟨p, content⟩ := pc
    simp only [addsFresh, Bool.and_eq_true] at hfresh
    obtain ⟨hw, hrest⟩ := hfresh
    obtain ⟨s1, hadd, hlog1, hidx1⟩ := log_add_file s xs p content l hidx hw hlog
    rw [hadd] at hrest
    obtain ⟨s2, xs2, happly, hlog2, hidx2⟩ := ih s1 _ l hidx1 hrest hlog1
    refine ⟨s2, xs2, ?_, hlog2, hidx2⟩
    simp only [applyAdds, hadd]
    exact happly

theorem runBuild_log : ∀ (steps : List BuildStep) (s : VcsState) (xs : List IndexData)
    (l : List (String × CommitData)),
    s.indexFile = some (IndexContent.entries xs) →
    buildFresh s steps = true →
    log s = LogResult.ok l →
    chainedB l = true →
    ∃ hs s1 l1, runBuild s steps = Except.ok (hs, s1) ∧
      log s1 = LogResult.ok l1 ∧ chainedB l1 = true ∧
      l1.map Prod.fst = hs ++ l.map Prod.fst ∧
      l1.length = steps.length + l.length := by
  intro steps
  induction steps with
  | nil => exact fun s xs l hidx _ hlog hch => ⟨[], s, l, rfl, hlog, hch, rfl, by simp⟩
  | cons step rest ih =>
    intro s xs l hidx hfresh hlog hch
    simp only [buildFresh, Bool.and_eq_true] at hfresh
    obtain ⟨hadds, hfresh⟩ := hfresh
    obtain ⟨s1, xs1, happly, hlog1, hidx1⟩ := applyAdds_log step.adds s xs l hidx hadds hlog
    rw [happly] at hfresh
    simp only [Bool.and_eq_true] at hfresh
    obtain ⟨hcf, hfresh⟩ := hfresh
    obtain ⟨s2, hcommit, hlog2, hch2, hidx2, -⟩ :=
      log_commit s1 xs1 step.message step.time_stamp l hidx1 hcf hlog1 hch
    rw [hcommit] at hfresh
    obtain ⟨hs3, s3, l3, hrun, hlog3, hch3, hmap3, hlen3⟩ :=
      ih s2 [] _ hidx2 hfresh hlog2 hch2
    refine ⟨hs3 ++ [hash (utf8Encode (serializeCommit
      ⟨step.message, step.time_stamp, xs1, get_current_head s1⟩))], s3, l3, ?_, hlog3, hch3, ?_, ?_⟩
    · simp only [runBuild, happly, hcommit, hrun]
    · rw [hmap3]
      simp
    · rw [hlen3]
      simp only [List.length_cons, List.length_map]
      omega

/-- C1: for every repository state whose staging index parses as a list
of entries, `commit` succeeds, leaves the staging index empty, and
leaves HEAD equal to the hash of the commit record it just stored — the
returned commit hash, which is the SHA-1 of the record's serde_json
bytes. -/
theorem commit_clears_index_and_sets_head (s : VcsState) (xs : List IndexData)
    (message time_stamp : String)
    (hidx : s.indexFile = some (IndexContent.entries xs)) :
    ∃ h s1, commit s message time_stamp = Except.ok (h, s1) ∧
      s1.indexFile = some (IndexContent.entries []) ∧
      get_current_head s1 = h ∧
      lookupObj s1.objects h =
        some (StoredObj.commitObj ⟨message, time_stamp, xs, get_current_head s⟩) ∧
      h = hash (utf8Encode (serializeCommit ⟨message, time_stamp, xs, get_current_head s⟩)) := by
  refine ⟨_, _, commit_spec s xs message time_stamp hidx, rfl, rfl, ?_, rfl⟩
  exact lookupObj_setObj_self s.objects _ _

/-- C1 witness: the invariant at a concrete freshly initialized
repository. -/
theorem commit_clears_index_and_sets_head_instance :
    (initialState "/repo").indexFile = some (IndexContent.entries []) ∧
    (∃ h s1, commit (initialState "/repo") "m" "t" = Except.ok (h, s1) ∧
      s1.indexFile = some (IndexContent.entries []) ∧
      get_current_head s1 = h ∧
      lookupObj s1.objects h =
        some (StoredObj.commitObj ⟨"m", "t", [], get_current_head (initialState "/repo")⟩) ∧
      h = hash (utf8Encode
        (serializeCommit ⟨"m", "t", [], get_current_head (initialState "/repo")⟩))) :=
  ⟨rfl, commit_clears_index_and_sets_head (initialState "/repo") [] "m" "t" rfl⟩

/-- C2: the claim fails on the code.  In the spec §8 scenario (commit₁
stores "hello" as a.txt, commit₂ stores "world" as a.txt), the parent
record is found and contains an entry whose `path` equals the current
entry's `path` ("a.txt") with retrievable content "hello"; yet
`show_commit_diff` reports no parent content, because the source hands
`objects_path.join(file.path)` — not `file.path` — to the path-equality
search of `get_parent_file_content`. -/
theorem diff_parent_lookup_never_matches_relative_paths :
    show_commit_diff scenarioState scenarioHead =
      Except.ok (DiffResult.report
        [⟨"a.txt", utf8Encode "world", ParentSide.absent⟩], scenarioState) ∧
    get_commit_data scenarioState scenarioParent =
      Except.ok (some ⟨"m1", "t1", [⟨"a.txt", hash (utf8Encode "hello")⟩], ""⟩) ∧
    get_parent_file_content scenarioState
      ⟨"m1", "t1", [⟨"a.txt", hash (utf8Encode "hello")⟩], ""⟩ "a.txt" =
      Except.ok (some (utf8Encode "hello")) :=
  ⟨rfl, rfl, rfl⟩

/-- C3 counterexample: the round-trip fails for the byte sequence
[0xFF].  `add_file` stores it, but retrieval at its hash panics inside
`read_to_string` (invalid UTF-8) instead of returning the bytes. -/
theorem roundtrip_fails_on_non_utf8_bytes :
    add_file (initialState "/repo") "f.bin" [255] = Except.ok c3State ∧
    lookupObj c3State.objects (hash [255]) = some (StoredObj.blob [255]) ∧
    get_file_contents c3State (hash [255]) = Except.error VcsPanic.panicked :=
  ⟨rfl, rfl, rfl⟩

/-- C3 amended: for every byte sequence B that is valid UTF-8, storing B
as `add_file` does and then retrieving the blob at `hash B` returns
exactly B (for arbitrary B the stored bytes are exactly B, but
`get_file_contents` panics on non-UTF-8 content). -/
theorem store_retrieve_roundtrip_utf8 (s : VcsState) (xs : List IndexData) (p : String)
    (B : List Nat)
    (hidx : s.indexFile = some (IndexContent.entries xs))
    (hval : validUtf8 B = true) :
    ∃ s1, add_file s p B = Except.ok s1 ∧
      lookupObj s1.objects (hash B) = some (StoredObj.blob B) ∧
      get_file_contents s1 (hash B) = Except.ok B := by
  refine ⟨_, add_file_spec s xs p B hidx, lookupObj_setObj_self s.objects _ _, ?_⟩
  have hl : lookupObj (setObj s.objects (hash B) (StoredObj.blob B)) (hash B)
      = some (StoredObj.blob B) := lookupObj_setObj_self s.objects _ _
  simp [get_file_contents, hl, hval]

/-- C3 amended witness: the round-trip at the concrete UTF-8 content
"hi". -/
theorem store_retrieve_roundtrip_utf8_instance :
    (initialState "/repo").indexFile = some (IndexContent.entries []) ∧
    validUtf8 (utf8Encode "hi") = true ∧
    (∃ s1, add_file (initialState "/repo") "f.txt" (utf8Encode "hi") = Except.ok s1 ∧
      lookupObj s1.objects (hash (utf8Encode "hi")) =
        some (StoredObj.blob (utf8Encode "hi")) ∧
      get_file_contents s1 (hash (utf8Encode "hi")) = Except.ok (utf8Encode "hi")) :=
  ⟨rfl, by decide,
    store_retrieve_roundtrip_utf8 (initialState "/repo") [] "f.txt" (utf8Encode "hi")
      rfl (by decide)⟩

/-- C4: storing the same content twice is idempotent — the second
`add_file` of B succeeds, the object store is unchanged (in particular
its size does not grow), and the blob at `hash B` still holds B. -/
theorem second_add_of_same_content_is_noop (s : VcsState) (xs : List IndexData)
    (p q : String) (B : List Nat)
    (hidx : s.indexFile = some (IndexContent.entries xs)) :
    ∃ s1, add_file s p B = Except.ok s1 ∧
    ∃ s2, add_file s1 q B = Except.ok s2 ∧
      s2.objects = s1.objects ∧
      s2.objects.length = s1.objects.length ∧
      lookupObj s2.objects (hash B) = some (StoredObj.blob B) := by
  refine ⟨_, add_file_spec s xs p B hidx, _,
    add_file_spec _ (xs ++ [⟨p, hash B⟩]) q B rfl, ?_, ?_, ?_⟩
  · show setObj (setObj s.objects (hash B) (StoredObj.blob B)) (hash B) (StoredObj.blob B)
      = setObj s.objects (hash B) (StoredObj.blob B)
    exact setObj_lookup_self _ _ _ (lookupObj_setObj_self s.objects _ _)
  · show (setObj (setObj s.objects (hash B) (StoredObj.blob B)) (hash B)
      (StoredObj.blob B)).length = (setObj s.objects (hash B) (StoredObj.blob B)).length
    rw [setObj_lookup_self _ _ _ (lookupObj_setObj_self s.objects _ _)]
  · show lookupObj (setObj (setObj s.objects (hash B) (StoredObj.blob B)) (hash B)
      (StoredObj.blob B)) (hash B) = some (StoredObj.blob B)
    exact lookupObj_setObj_self _ _ _

/-- C4 witness: the idempotent second add at the concrete content
"hi". -/
theorem second_add_of_same_content_is_noop_instance :
    (initialState "/repo").indexFile = some (IndexContent.entries []) ∧
    (∃ s1, add_file (initialState "/repo") "a.txt" (utf8Encode "hi") = Except.ok s1 ∧
     ∃ s2, add_file s1 "a.txt" (utf8Encode "hi") = Except.ok s2 ∧
       s2.objects = s1.objects ∧
       s2.objects.length = s1.objects.length ∧
       lookupObj s2.objects (hash (utf8Encode "hi")) =
         some (StoredObj.blob (utf8Encode "hi"))) :=
  ⟨rfl, second_add_of_same_content_is_noop (initialState "/repo") [] "a.txt" "a.txt"
    (utf8Encode "hi") rfl⟩

/-- C5: for every repository built by N sequential successful commits —
provided no SHA-1 hash written during the build replaces a different
stored object, the collision-resistance assumption spec §9 accepts —
`log` yields exactly N (hash, record) pairs, most recent first, each
record's parent equal to the hash of the next yielded pair and the last
record's parent empty; and from a state whose HEAD is empty the walk
yields nothing. -/
theorem log_yields_build_chain (cwd : String) (steps : List BuildStep)
    (hfresh : buildFresh (initialState cwd) steps = true) :
    (∃ hs s1 l1, runBuild (initialState cwd) steps = Except.ok (hs, s1) ∧
      log s1 = LogResult.ok l1 ∧
      l1.length = steps.length ∧
      l1.map Prod.fst = hs ∧
      chainedB l1 = true) ∧
    (∀ t : VcsState, get_current_head t = "" → log t = LogResult.ok []) := by
  constructor
  · obtain ⟨hs, s1, l1, hrun, hlog, hch, hmap, hlen⟩ :=
      runBuild_log steps (initialState cwd) [] [] rfl hfresh rfl rfl
    exact ⟨hs, s1, l1, hrun, hlog, by simpa using hlen, by simpa using hmap, hch⟩
  · intro t ht
    show logAux t.objects (t.objects.length + 1) (get_current_head t) = LogResult.ok []
    rw [ht]
    exact logAux_empty t.objects (t.objects.length + 1)

/-- C5 witness: the two-commit scenario build is collision-free, and the
theorem instantiates on it. -/
theorem log_yields_build_chain_instance :
    buildFresh (initialState "/repo") scenarioSteps = true ∧
    ((∃ hs s1 l1, runBuild (initialState "/repo") scenarioSteps = Except.ok (hs, s1) ∧
      log s1 = LogResult.ok l1 ∧
      l1.length = scenarioSteps.length ∧
      l1.map Prod.fst = hs ∧
      chainedB l1 = true) ∧
    (∀ t : VcsState, get_current_head t = "" → log t = LogResult.ok [])) :=
  ⟨by decide, log_yields_build_chain "/repo" scenarioSteps (by decide)⟩

/-- C6: `get_current_head` returns the stored HEAD text when the file is
readable, and the empty string when it is missing or unreadable — it
never surfaces the failure. -/
theorem head_read_failure_swallowed (s : VcsState) :
    (s.headFile = none → get_current_head s = "") ∧
    (s.headFile = some HeadContent.invalid → get_current_head s = "") ∧
    (∀ str, s.headFile = some (HeadContent.text str) → get_current_head s = str) := by
  refine ⟨?_, ?_, ?_⟩
  · intro h
    simp [get_current_head, h]
  · intro h
    simp [get_current_head, h]
  · intro str h
    simp [get_current_head, h]

/-- C6 witness: the three cases at concrete states. -/
theorem head_read_failure_swallowed_instance :
    get_current_head (emptyDirState "/repo") = "" ∧
    get_current_head { emptyDirState "/repo" with headFile := some HeadContent.invalid } = "" ∧
    get_current_head { emptyDirState "/repo" with
      headFile := some (HeadContent.text "abc") } = "abc" :=
  ⟨(head_read_failure_swallowed (emptyDirState "/repo")).1 rfl,
   (head_read_failure_swallowed _).2.1 rfl,
   (head_read_failure_swallowed _).2.2 "abc" rfl⟩

/-- C7: for every hash with no object stored at it, `show_commit_diff`
reports "Commit not found", returns normally rather than panicking, and
leaves the repository state unchanged. -/
theorem diff_missing_commit_reports_not_found (s : VcsState) (h : String)
    (habs : lookupObj s.objects h = none) :
    show_commit_diff s h = Except.ok (DiffResult.notFound, s) := by
  unfold show_commit_diff get_commit_data
  rw [habs]

/-- C7 witness: a missing hash on a concrete repository. -/
theorem diff_missing_commit_reports_not_found_instance :
    lookupObj (initialState "/repo").objects "deadbeef" = none ∧
    show_commit_diff (initialState "/repo") "deadbeef" =
      Except.ok (DiffResult.notFound, initialState "/repo") :=
  ⟨rfl, diff_missing_commit_reports_not_found (initialState "/repo") "deadbeef" rfl⟩

/-- C8: on a parseable staging index, `update_staging_area` appends
exactly one new entry at the end, preserving the existing entries and
their order with no uniqueness check on the path, and `commit` copies
the staged entries verbatim, in order, into the stored record's file
list. -/
theorem staging_appends_and_commit_copies_verbatim (s : VcsState) (xs : List IndexData)
    (p h message time_stamp : String)
    (hidx : s.indexFile = some (IndexContent.entries xs)) :
    (∃ s1, update_staging_area s p h = Except.ok s1 ∧
       s1.indexFile = some (IndexContent.entries (xs ++ [⟨p, h⟩]))) ∧
    (∃ ch s2, commit s message time_stamp = Except.ok (ch, s2) ∧
       lookupObj s2.objects ch =
         some (StoredObj.commitObj ⟨message, time_stamp, xs, get_current_head s⟩)) := by
  constructor
  · exact ⟨_, update_staging_area_spec s xs p h hidx, rfl⟩
  · exact ⟨_, _, commit_spec s xs message time_stamp hidx,
      lookupObj_setObj_self s.objects _ _⟩

/-- C8 witness: staging "a.txt" a second time on an index that already
holds an entry for "a.txt" appends an independent duplicate pair, and
commit copies both verbatim. -/
theorem staging_appends_and_commit_copies_verbatim_instance :
    dupState.indexFile = some (IndexContent.entries [⟨"a.txt", "h1"⟩]) ∧
    ((∃ s1, update_staging_area dupState "a.txt" "h2" = Except.ok s1 ∧
       s1.indexFile = some (IndexContent.entries [⟨"a.txt", "h1"⟩, ⟨"a.txt", "h2"⟩])) ∧
    (∃ ch s2, commit dupState "m" "t" = Except.ok (ch, s2) ∧
       lookupObj s2.objects ch =
         some (StoredObj.commitObj ⟨"m", "t", [⟨"a.txt", "h1"⟩], get_current_head dupState⟩))) :=
  ⟨rfl, staging_appends_and_commit_copies_verbatim dupState [⟨"a.txt", "h1"⟩]
    "a.txt" "h2" "m" "t" rfl⟩

/-- C9: running `init` on an already-initialized repository (all four
persisted locations present) succeeds, changes nothing, and reports the
pre-existence of all four locations. -/
theorem init_idempotent_on_initialized (s : VcsState)
    (h1 : s.repoDirExists = true) (h2 : s.objectsDirExists = true)
    (h3 : s.indexFile.isSome = true) (h4 : s.headFile.isSome = true) :
    init s = (s, ⟨true, true, true, true⟩) := by
  simp [init, h1, h2, h3, h4]

/-- C9 witness: re-running `init` on the freshly initialized
repository. -/
theorem init_idempotent_on_initialized_instance :
    (initialState "/repo").repoDirExists = true ∧
    (initialState "/repo").objectsDirExists = true ∧
    (initialState "/repo").indexFile.isSome = true ∧
    (initialState "/repo").headFile.isSome = true ∧
    init (initialState "/repo") = (initialState "/repo", ⟨true, true, true, true⟩) :=
  ⟨rfl, rfl, rfl, rfl, init_idempotent_on_initialized (initialState "/repo") rfl rfl rfl rfl⟩

/-- C10: `commit` performs no referential check on staged hashes — on a
parseable staging index it succeeds, stores the record with the staged
entries verbatim, and updates HEAD even when a staged entry's hash names
no blob in the object store. -/
theorem commit_ignores_dangling_hashes (s : VcsState) (xs : List IndexData)
    (message time_stamp : String)
    (hidx : s.indexFile = some (IndexContent.entries xs))
    (_hdangling : ∃ e ∈ xs, lookupObj s.objects e.hash = none) :
    ∃ h s1, commit s message time_stamp = Except.ok (h, s1) ∧
      lookupObj s1.objects h =
        some (StoredObj.commitObj ⟨message, time_stamp, xs, get_current_head s⟩) ∧
      get_current_head s1 = h ∧
      s1.indexFile = some (IndexContent.entries []) :=
  ⟨_, _, commit_spec s xs message time_stamp hidx,
    lookupObj_setObj_self s.objects _ _, rfl, rfl⟩

/-- C10 witness: committing an index entry whose hash is absent from the
object store. -/
theorem commit_ignores_dangling_hashes_instance :
    danglingState.indexFile = some (IndexContent.entries [⟨"ghost.txt", "0000"⟩]) ∧
    (∃ e ∈ [(⟨"ghost.txt", "0000"⟩ : IndexData)],
      lookupObj danglingState.objects e.hash = none) ∧
    (∃ h s1, commit danglingState "m" "t" = Except.ok (h, s1) ∧
      lookupObj s1.objects h =
        some (StoredObj.commitObj ⟨"m", "t", [⟨"ghost.txt", "0000"⟩],
          get_current_head danglingState⟩) ∧
      get_current_head s1 = h ∧
      s1.indexFile = some (IndexContent.entries [])) :=
  ⟨rfl, ⟨⟨"ghost.txt", "0000"⟩, List.mem_singleton.mpr rfl, rfl⟩,
   commit_ignores_dangling_hashes danglingState [⟨"ghost.txt", "0000"⟩] "m" "t" rfl
     ⟨⟨"ghost.txt", "0000"⟩, List.mem_singleton.mpr rfl, rfl⟩⟩

end Sgvcs
